import Mathlib

/-!
Verification of the fastface repository's core training logic against its
specification.

The embedding models:
* `LFFDTinyPart.training_step` (src/models/lffd/tiny.py, lines 70-133): the
  flattened-batch stage — mask construction, hard-negative mining, and the
  two loss terms.  Tensors flattened to `(batch, locations)` (and then
  `view(-1)` for mining, which pools over the whole batch) are modelled as
  plain lists over all locations of the whole batch; boolean-mask indexing
  `t[mask]` flattens row-major, which coincides with this order.
* `LFFDTinyPart.forward` and the flatten/concatenate step (lines 47-68 and
  88-109): per-head grids, their row-major flattening and concatenation in
  head order.
* `BaseDataset` (src/fastface/dataset/base.py): `__init__` kwargs handling,
  `__getitem__` deep-copy semantics (over an explicit little heap, so that
  mutation by transforms is expressible), and `_load_image`.

Real numbers of the losses are modelled by `ℚ`; the elementwise
binary-cross-entropy-with-logits scalar function (a transcendental function
of logit and target) is abstracted as a parameter `bce : ℚ → ℚ → ℚ`, while
the structure of the reduction (selection by masks, mean, NaN on an empty
mean) is modelled exactly.  `none : Option ℚ` models the NaN produced by
PyTorch's mean reduction over an empty selection.
-/

namespace FastFace

/-! ### Boolean-mask primitives (torch operations used in training_step) -/

/-- Number of `true` entries of a boolean mask: `mask.sum()` on a bool tensor. -/
def countTrue (l : List Bool) : Nat := l.countP id

/-- Indices of the `true` entries, in ascending order: `torch.where(mask.view(-1))`. -/
def whereTrue : List Bool → List Nat
  | [] => []
  | b :: bs => (if b then [0] else []) ++ (whereTrue bs).map (· + 1)

/-- Boolean-mask selection `xs[mask]` (row-major, same order as `view(-1)`). -/
def maskSelect {α : Type} (xs : List α) (m : List Bool) : List α :=
  ((xs.zip m).filter (fun p => p.2)).map (fun p => p.1)

/-! ### Hard-negative mining (src/models/lffd/tiny.py, lines 114-124)

`ratio` is the constant 10 bound at line 77 of `training_step`. -/

/-- Modelled from the spec: `random_sample_selection` is imported from
`utils.utils`, which is not among this repository's source files.  Per the
spec (§4.4, step 3) it uniformly samples `k` indices without replacement from
`population`.  It is modelled as one deterministic admissible draw — the
first `k` population elements, which are `k` distinct members of the
population whenever `k ≤ population.length`. -/
def random_sample_selection (population : List Nat) (k : Nat) : List Nat :=
  population.take k

/-- Lines 114-124 of `training_step`: count positives and negatives over the
whole flattened batch, cap the negatives at `ratio * positives` with
`ratio = 10`, sample that many indices from the currently-true negative
positions, and rebuild the negative mask with exactly the sampled indices
true. -/
def mineNegMask (pos neg : List Bool) : List Bool :=
  let positives := countTrue pos
  let negatives := min (countTrue neg) (10 * positives)
  let ss := whereTrue neg
  let ss2 := random_sample_selection ss negatives
  (List.range neg.length).map (fun i => decide (i ∈ ss2))

/-! ### Flattened batch state and the loss computation (lines 105-133)

After the per-head flattening and `torch.cat` (verified separately below),
`training_step` works on flat per-location tensors; the batch dimension is
flattened away (mining uses `view(-1)`, and boolean-mask indexing is
row-major), so each tensor is modelled as one list over all locations of the
whole batch. -/

/-- Four regression channels of one location. -/
abbrev Q4 : Type := ℚ × ℚ × ℚ × ℚ

/-- The flattened, concatenated per-location tensors of one batch as they
stand after line 109 of `training_step`. -/
structure FlatBatch where
  cls_logits : List ℚ
  reg_logits : List Q4
  target_cls : List ℚ
  target_regs : List Q4
  ignore : List Bool

/-- Line 111: `pos_mask = (target_cls == 1) & (~ignore)`. -/
def pos_mask (b : FlatBatch) : List Bool :=
  List.zipWith (fun t ig => decide (t = 1) && !ig) b.target_cls b.ignore

/-- Line 112: `neg_mask = (target_cls == 0) & (~ignore)`. -/
def neg_mask (b : FlatBatch) : List Bool :=
  List.zipWith (fun t ig => decide (t = 0) && !ig) b.target_cls b.ignore

/-- Elementwise `|` of two boolean masks. -/
def orMask (a b : List Bool) : List Bool := List.zipWith (· || ·) a b

/-- Mean reduction of an elementwise loss `f` over paired selections, as in
`F.binary_cross_entropy_with_logits(input, target)` (default `mean`
reduction).  `none` models the NaN PyTorch produces for the mean over an
empty selection. -/
def meanLoss (f : ℚ → ℚ → ℚ) (input target : List ℚ) : Option ℚ :=
  let vals := List.zipWith f input target
  if vals.length = 0 then none else some (vals.sum / vals.length)

/-- Sum of squared differences over the four regression channels of one
location. -/
def sqErr4 (x y : Q4) : ℚ :=
  (x.1 - y.1) ^ 2 + (x.2.1 - y.2.1) ^ 2 + (x.2.2.1 - y.2.2.1) ^ 2 +
    (x.2.2.2 - y.2.2.2) ^ 2

/-- `F.mse_loss(input, target)` with the default `mean` reduction: the mean
of the squared differences over all `4 * n` selected scalars; `none` models
the NaN produced on an empty selection. -/
def mse_loss (input target : List Q4) : Option ℚ :=
  let vals := List.zipWith sqErr4 input target
  if vals.length = 0 then none else some (vals.sum / (4 * vals.length))

/-- The mean of an elementwise loss over a list of (logit, target) pairs —
the same reduction as `meanLoss`, phrased over already-paired selections. -/
def pairLoss (f : ℚ → ℚ → ℚ) (pairs : List (ℚ × ℚ)) : Option ℚ :=
  if pairs.length = 0 then none
  else some ((pairs.map (fun p => f p.1 p.2)).sum / pairs.length)

/-- The mean-squared-error reduction over a list of (regression logit,
regression target) pairs. -/
def pairLoss4 (pairs : List (Q4 × Q4)) : Option ℚ :=
  if pairs.length = 0 then none
  else some ((pairs.map (fun p => sqErr4 p.1 p.2)).sum / (4 * pairs.length))

/-- Lines 126-127: classification loss over `pos_mask | neg_mask` after
mining, with the elementwise binary-cross-entropy-with-logits scalar
abstracted as `bce`. -/
def cls_loss (bce : ℚ → ℚ → ℚ) (b : FlatBatch) : Option ℚ :=
  meanLoss bce
    (maskSelect b.cls_logits (orMask (pos_mask b) (mineNegMask (pos_mask b) (neg_mask b))))
    (maskSelect b.target_cls (orMask (pos_mask b) (mineNegMask (pos_mask b) (neg_mask b))))

/-- Line 129: regression loss over `pos_mask` only. -/
def reg_loss (b : FlatBatch) : Option ℚ :=
  mse_loss (maskSelect b.reg_logits (pos_mask b)) (maskSelect b.target_regs (pos_mask b))

/-- Lines 111-133 of `LFFDTinyPart.training_step` after the concatenation:
masks, mining, the two losses, the NaN assertion of line 131 (modelled as an
`Except.error`), and the returned sum. -/
def training_step (bce : ℚ → ℚ → ℚ) (b : FlatBatch) : Except String ℚ :=
  match cls_loss bce b, reg_loss b with
  | some c, some r => Except.ok (c + r)
  | _, _ => Except.error "nan loss"

/-! ### Forward ordering and head-order-preserving flattening (lines 47-68
and 88-109) -/

/-- Row-major flattening of one head's per-location grid:
`permute(0,2,3,1).view(bs, -1)` for one batch element maps grid entry
`(h, w)` to flat index `h * W + w`, i.e. `List.join` of the rows. -/
def flattenGrid {α : Type} (g : List (List α)) : List α := g.flatten

/-- Lines 105-109: concatenation of the flattened per-head tensors along the
location axis, in head order. -/
def flattenConcat {α : Type} (gs : List (List (List α))) : List α :=
  (gs.map flattenGrid).flatten

/-- Lines 60-68 of `LFFDTinyPart.forward`: head `i` is applied to feature
map `i`, and the `cls` and `reg` outputs are collected in that same order.
The backbone and the heads themselves are abstracted as functions. -/
def forward {F A B : Type} (heads : List (F → A × B)) (featureMaps : List F) :
    List A × List B :=
  ((heads.zip featureMaps).map (fun hf => (hf.1 hf.2).1),
   (heads.zip featureMaps).map (fun hf => (hf.1 hf.2).2))

/-- `LFFDTinyPart.__SCALES__` (line 21): the scale bands of the two heads,
in the order the heads are constructed and applied. -/
def SCALES : List (Nat × Nat) := [(10, 15), (15, 20)]

/-- Zip two per-head grid families pointwise (same head, same grid cell). -/
def zipGrids {α β : Type} (gs : List (List (List α))) (hs : List (List (List β))) :
    List (List (List (α × β))) :=
  List.zipWith (fun g h => List.zipWith List.zip g h) gs hs

/-- Two grids have identical spatial dimensions. -/
def gridDimsEq {α β : Type} : List (List α) → List (List β) → Bool
  | [], [] => true
  | r :: g, s :: h => r.length == s.length && gridDimsEq g h
  | _, _ => false

/-- Two per-head grid families agree in number of heads and, head by head,
in every grid's dimensions (as the logits and targets of `training_step`
do: `build_targets` is called on each head's own feature-map shape). -/
def dimsMatch {α β : Type} : List (List (List α)) → List (List (List β)) → Bool
  | [], [] => true
  | g :: gs, h :: hs => gridDimsEq g h && dimsMatch gs hs
  | _, _ => false

/-! ### BaseDataset (src/fastface/dataset/base.py)

To make mutation by transforms expressible, target dicts live on an explicit
heap (a list of dict values addressed by index); the dataset stores
references into that heap, and a transform is modelled as an arbitrary
in-place rewriting of the dict it receives. -/

/-- One stored target annotation dict. -/
abbrev TargetDict : Type := List (String × Nat)

/-- A heap of dict objects addressed by index. -/
abbrev Heap : Type := List TargetDict

/-- The per-instance state of `BaseDataset` relevant to `__getitem__`:
`self.targets` is a list of references to dict objects. -/
structure BaseDataset where
  ids : List String
  targetRefs : List Nat

/-- `copy.deepcopy` of the dict at reference `r`: a fresh object with the
same value is allocated at the end of the heap. -/
def deepcopy (h : Heap) (r : Nat) : Heap × Nat :=
  (h ++ [h.getD r []], h.length)

/-- In-place mutation of the dict object at reference `r` by `f`. -/
def mutateAt (h : Heap) (r : Nat) (f : TargetDict → TargetDict) : Heap :=
  h.set r (f (h.getD r []))

/-- Lines 35-42, `BaseDataset.__getitem__` (target side): deep-copy the
stored target dict, hand the copy to the transforms — modelled as an
arbitrary mutation `f` of the dict they receive — and return the
transformed dict together with the resulting heap. -/
def getitem (h : Heap) (ds : BaseDataset) (f : TargetDict → TargetDict) (idx : Nat) :
    Heap × TargetDict :=
  let copy := deepcopy h (ds.targetRefs.getD idx 0)
  let h2 := mutateAt copy.1 copy.2 f
  (h2, h2.getD copy.2 [])

/-! ### BaseDataset.__init__ kwargs handling (lines 18-33) -/

/-- Python `hasattr(self, k)` over an attribute table. -/
def hasattr {α : Type} (attrs : List (String × α)) (k : String) : Bool :=
  attrs.any (fun p => p.1 == k)

/-- Python attribute lookup: the first (unique) binding of `k`. -/
def getattrD {α : Type} (attrs : List (String × α)) (k : String) : Option α :=
  (attrs.find? (fun p => p.1 == k)).map (fun p => p.2)

/-- Python `setattr(self, k, v)` for a name the instance does not yet have:
a new binding is added. -/
def setattr {α : Type} (attrs : List (String × α)) (k : String) (v : α) :
    List (String × α) :=
  attrs ++ [(k, v)]

/-- The body of the kwargs loop (lines 29-33): skip a keyword whose name
the instance already has, attach it as a new attribute otherwise. -/
def attrStep {α : Type} (acc : List (String × α)) (kv : String × α) :
    List (String × α) :=
  if hasattr acc kv.1 then acc else setattr acc kv.1 kv.2

/-- Lines 24-33 of `BaseDataset.__init__`: the instance starts with the
attributes `ids`, `targets` and `transforms`, then for each keyword argument
the name is skipped when `hasattr` holds and attached via `setattr`
otherwise; no keyword is ever rejected. -/
def initAttrs {α : Type} (ids targets transforms : α) (kwargs : List (String × α)) :
    List (String × α) :=
  kwargs.foldl attrStep [("ids", ids), ("targets", targets), ("transforms", transforms)]

/-! ### BaseDataset._load_image (lines 47-69) -/

/-- A numpy array of 2, 3 or 4 dimensions with natural-number entries (the
contiguity fix at lines 58-60 does not change values and is omitted). -/
inductive NpArr : Type where
  | d2 : List (List Nat) → NpArr
  | d3 : List (List (List Nat)) → NpArr
  | d4 : List (List (List (List Nat))) → NpArr

/-- Conversion of one scalar by `np.array(img, dtype=np.uint8)` (wraps
modulo 256). -/
def toUInt8Nat (v : Nat) : Nat := v % 256

/-- `np.array(img, dtype=np.uint8)` applied to every entry. -/
def castArrU8 : NpArr → NpArr
  | .d2 a => .d2 (a.map (List.map toUInt8Nat))
  | .d3 a => .d3 (a.map (List.map (List.map toUInt8Nat)))
  | .d4 a => .d4 (a.map (List.map (List.map (List.map toUInt8Nat))))

/-- Every entry is a valid uint8 value. -/
def u8Bounded : NpArr → Bool
  | .d2 a => a.all (fun r => r.all (fun v => v < 256))
  | .d3 a => a.all (fun p => p.all (fun r => r.all (fun v => v < 256)))
  | .d4 a => a.all (fun q => q.all (fun p => p.all (fun r => r.all (fun v => v < 256))))

/-- Lines 57-69 of `BaseDataset._load_image` after decoding: when the array
has 4 dimensions, `img[:, :, :3]` keeps the first 3 slices of axis 2; when
it has 2 dimensions, the single channel is stacked 3 times along a new last
axis; a 3-dimensional array passes through unchanged; finally the result is
cast to uint8. -/
def _load_image (img : NpArr) : NpArr :=
  castArrU8 (match img with
    | .d4 a => .d4 (a.map (fun x => x.map (fun y => y.take 3)))
    | .d2 a => .d3 (a.map (fun row => row.map (fun v => [v, v, v])))
    | .d3 a => .d3 a)

/-! ### Concrete inputs used by the witnesses -/

/-- A concrete elementwise classification loss used to instantiate `bce`
in witnesses. -/
def bceSq : ℚ → ℚ → ℚ := fun x y => (x - y) ^ 2

/-- A flattened batch with one positive and ten negatives (so that the
mined-negative count reaches the `10 * positives` cap exactly). -/
def exBatch1 : FlatBatch where
  cls_logits := List.replicate 11 0
  reg_logits := List.replicate 11 (0, 0, 0, 0)
  target_cls := 1 :: List.replicate 10 0
  target_regs := List.replicate 11 (0, 0, 0, 0)
  ignore := List.replicate 11 false

/-- A flattened batch with zero positives and two negatives. -/
def exBatchNoPos : FlatBatch where
  cls_logits := [0, 0]
  reg_logits := [(0, 0, 0, 0), (0, 0, 0, 0)]
  target_cls := [0, 0]
  target_regs := [(0, 0, 0, 0), (0, 0, 0, 0)]
  ignore := [false, false]

/-- A one-object heap with a one-entry target dict. -/
def exHeap : Heap := [[("label", 1)]]

/-- A dataset holding one id whose target is the dict at reference 0. -/
def exDS : BaseDataset where
  ids := ["img0"]
  targetRefs := [0]

/-- A destructive transform: it overwrites the dict it receives. -/
def exMut : TargetDict → TargetDict := fun _ => [("label", 99)]

/-- A single-location batch with one positive, used where witness values of
the losses themselves must be evaluated. -/
def exSmall : FlatBatch where
  cls_logits := [0]
  reg_logits := [(0, 0, 0, 0)]
  target_cls := [1]
  target_regs := [(0, 0, 0, 0)]
  ignore := [false]

/-! ### Lemmas about the mask primitives -/

@[simp] theorem countTrue_nil : countTrue [] = 0 := rfl

@[simp] theorem countTrue_cons (b : Bool) (bs : List Bool) :
    countTrue (b :: bs) = (if b then 1 else 0) + countTrue bs := by
  cases b
  · simp [countTrue, List.countP_cons]
  · simp [countTrue, List.countP_cons, Nat.add_comm]

@[simp] theorem whereTrue_nil : whereTrue [] = [] := rfl

@[simp] theorem whereTrue_cons_true (bs : List Bool) :
    whereTrue (true :: bs) = 0 :: (whereTrue bs).map (· + 1) := rfl

@[simp] theorem whereTrue_cons_false (bs : List Bool) :
    whereTrue (false :: bs) = (whereTrue bs).map (· + 1) := rfl

theorem whereTrue_length (l : List Bool) : (whereTrue l).length = countTrue l := by
  induction l with
  | nil => rfl
  | cons b bs ih => cases b <;> simp [ih] <;> omega

theorem mem_whereTrue {l : List Bool} {i : Nat} :
    i ∈ whereTrue l ↔ l.getD i false = true := by
  induction l generalizing i with
  | nil => simp
  | cons b bs ih =>
    cases i with
    | zero => cases b <;> simp
    | succ j => cases b <;> simp [ih]

theorem whereTrue_lt_length {l : List Bool} {i : Nat} (h : i ∈ whereTrue l) :
    i < l.length := by
  by_contra hge
  rw [mem_whereTrue, List.getD_eq_default _ _ (by omega)] at h
  exact Bool.false_ne_true h

theorem whereTrue_nodup (l : List Bool) : (whereTrue l).Nodup := by
  induction l with
  | nil => simp
  | cons b bs ih =>
    have hmap : ((whereTrue bs).map (· + 1)).Nodup :=
      ih.map (fun a b h => by omega)
    cases b with
    | false => simpa using hmap
    | true =>
      simp only [whereTrue_cons_true, List.nodup_cons]
      refine ⟨fun hmem => ?_, hmap⟩
      rcases List.mem_map.mp hmem with ⟨a, _, ha⟩
      omega

/-! ### Counting the rebuilt negative mask -/

theorem countTrue_map_mem_range {s : List Nat} {n : Nat} (hnd : s.Nodup)
    (hlt : ∀ i ∈ s, i < n) :
    countTrue ((List.range n).map (fun i => decide (i ∈ s))) = s.length := by
  have h1 : countTrue ((List.range n).map (fun i => decide (i ∈ s)))
      = ((List.range n).filter (fun i => decide (i ∈ s))).length := by
    simp [countTrue, List.countP_eq_length_filter, List.filter_map, Function.comp]
  have hsub : ((List.range n).filter (fun i => decide (i ∈ s))).toFinset = s.toFinset := by
    ext x
    simp only [List.mem_toFinset, List.mem_filter, List.mem_range, decide_eq_true_eq]
    exact ⟨fun h => h.2, fun h => ⟨hlt x h, h⟩⟩
  have hnd2 : ((List.range n).filter (fun i => decide (i ∈ s))).Nodup :=
    (List.nodup_range n).filter _
  rw [h1, ← List.toFinset_card_of_nodup hnd2, hsub, List.toFinset_card_of_nodup hnd]

theorem countTrue_mineNegMask (pos neg : List Bool) :
    countTrue (mineNegMask pos neg) = min (countTrue neg) (10 * countTrue pos) := by
  unfold mineNegMask random_sample_selection
  set k := min (countTrue neg) (10 * countTrue pos) with hk
  have hkle : k ≤ (whereTrue neg).length := by
    rw [whereTrue_length]; omega
  have hnd : ((whereTrue neg).take k).Nodup :=
    (List.take_sublist k (whereTrue neg)).nodup (whereTrue_nodup neg)
  have hlt : ∀ i ∈ (whereTrue neg).take k, i < neg.length := fun i hi =>
    whereTrue_lt_length (List.take_subset k (whereTrue neg) hi)
  rw [countTrue_map_mem_range hnd hlt, List.length_take]
  omega

/-- C1: in `training_step`, positives are counted by summing the positive
mask over the whole flattened batch, and the rebuilt negative mask after
hard-negative mining has at most `ratio * P = 10 * P` true entries, at most
as many as the negatives before mining, and exactly `10 * P` when at least
`10 * P` negatives existed before mining. -/
theorem C1_negative_cap (b : FlatBatch) :
    countTrue (mineNegMask (pos_mask b) (neg_mask b)) ≤ 10 * countTrue (pos_mask b) ∧
    countTrue (mineNegMask (pos_mask b) (neg_mask b)) ≤ countTrue (neg_mask b) ∧
    (10 * countTrue (pos_mask b) ≤ countTrue (neg_mask b) →
      countTrue (mineNegMask (pos_mask b) (neg_mask b)) = 10 * countTrue (pos_mask b)) := by
  have h := countTrue_mineNegMask (pos_mask b) (neg_mask b)
  omega

theorem C1_negative_cap_witness :
    10 * countTrue (pos_mask exBatch1) ≤ countTrue (neg_mask exBatch1) ∧
    countTrue (mineNegMask (pos_mask exBatch1) (neg_mask exBatch1)) =
      10 * countTrue (pos_mask exBatch1) :=
  ⟨by decide, (C1_negative_cap exBatch1).2.2 (by decide)⟩

/-- C7 counterexample: the mining step of `training_step` contains no
overlap check and raises nothing; on overlapping masks (`[true]`, `[true]`
overlap at location 0) it simply rebuilds the negative mask and returns it,
so "raises `InvalidMaskError` if the masks overlap" is false. -/
theorem C7_counterexample : mineNegMask [true] [true] = [true] := by decide

/-- C7 amended: the hard-negative-mining step never raises
`InvalidMaskError` — the code has no overlap check; for every pair of masks,
overlapping or not, it completes normally and returns a rebuilt negative
mask over the same locations with `min(negatives, 10 * positives)` entries
true. -/
theorem C7_no_overlap_check (pos neg : List Bool) :
    (mineNegMask pos neg).length = neg.length ∧
    countTrue (mineNegMask pos neg) = min (countTrue neg) (10 * countTrue pos) :=
  ⟨by simp [mineNegMask], countTrue_mineNegMask pos neg⟩

/-! ### Selection and loss lemmas -/

@[simp] theorem maskSelect_nil_left {α : Type} (m : List Bool) :
    maskSelect ([] : List α) m = [] := rfl

@[simp] theorem maskSelect_nil_right {α : Type} (xs : List α) :
    maskSelect xs [] = [] := by simp [maskSelect]

@[simp] theorem maskSelect_cons {α : Type} (x : α) (xs : List α) (b : Bool) (bs : List Bool) :
    maskSelect (x :: xs) (b :: bs) = (if b then [x] else []) ++ maskSelect xs bs := by
  cases b <;> simp [maskSelect, List.filter_cons]

theorem maskSelect_of_countTrue_zero {α : Type} (xs : List α) {m : List Bool}
    (h : countTrue m = 0) : maskSelect xs m = [] := by
  induction xs generalizing m with
  | nil => simp
  | cons x xs ih =>
    cases m with
    | nil => simp
    | cons b bs =>
      cases b with
      | false => simpa using ih (by simpa using h)
      | true => simp at h

theorem countTrue_orMask_zero {a b : List Bool} (ha : countTrue a = 0)
    (hb : countTrue b = 0) : countTrue (orMask a b) = 0 := by
  induction a generalizing b with
  | nil => simp [orMask]
  | cons x xs ih =>
    cases b with
    | nil => simp [orMask]
    | cons y ys =>
      cases x with
      | true => simp at ha
      | false =>
        cases y with
        | true => simp at hb
        | false =>
          have := ih (b := ys) (by simpa using ha) (by simpa using hb)
          simpa [orMask] using this

theorem get?_zipWith {α β γ : Type} (f : α → β → γ) :
    ∀ (l1 : List α) (l2 : List β) (i : Nat) (x : α) (y : β),
      l1.get? i = some x → l2.get? i = some y →
      (List.zipWith f l1 l2).get? i = some (f x y)
  | [], _, _, _, _, h, _ => by simp at h
  | _ :: _, [], _, _, _, _, h => by simp at h
  | a :: as, b :: bs, 0, x, y, hx, hy => by
      simp at hx hy; subst hx; subst hy; rfl
  | a :: as, b :: bs, i + 1, x, y, hx, hy => by
      simpa using get?_zipWith f as bs i x y (by simpa using hx) (by simpa using hy)

theorem maskSelect_zip {α β : Type} :
    ∀ (xs : List α) (ys : List β) (m : List Bool), xs.length = ys.length →
      maskSelect (xs.zip ys) m = (maskSelect xs m).zip (maskSelect ys m)
  | [], [], m, _ => by simp
  | [], _ :: _, _, h => by simp at h
  | _ :: _, [], _, h => by simp at h
  | x :: xs, y :: ys, [], _ => by simp
  | x :: xs, y :: ys, b :: bs, h => by
      have ih := maskSelect_zip xs ys bs (by simpa using h)
      cases b <;> simp [ih]

theorem zipWith_eq_map_zip {α β γ : Type} (f : α → β → γ) :
    ∀ (xs : List α) (ys : List β),
      List.zipWith f xs ys = (xs.zip ys).map (fun p => f p.1 p.2)
  | [], _ => by simp
  | _ :: _, [] => by simp
  | x :: xs, y :: ys => by simpa using zipWith_eq_map_zip f xs ys

theorem meanLoss_eq_pairLoss (f : ℚ → ℚ → ℚ) (xs ys : List ℚ) :
    meanLoss f xs ys = pairLoss f (xs.zip ys) := by
  simp [meanLoss, pairLoss, zipWith_eq_map_zip]

theorem mse_loss_eq_pairLoss4 (xs ys : List Q4) :
    mse_loss xs ys = pairLoss4 (xs.zip ys) := by
  simp [mse_loss, pairLoss4, zipWith_eq_map_zip]

/-! ### Claims C2, C3, C4, C6 -/

/-- C3: at every location, the positive mask is `target_cls == 1 ∧ ¬ignore`
and the negative mask is `target_cls == 0 ∧ ¬ignore`; the two masks are
disjoint, and — the target labels being 0 or 1 (spec §3, `build_targets` is
not among the sources) — every location is exactly one of positive,
negative, ignore. -/
theorem C3_masks_partition (b : FlatBatch) (i : Nat) (t : ℚ) (ig : Bool)
    (ht : b.target_cls.get? i = some t) (hig : b.ignore.get? i = some ig)
    (hbin : t = 0 ∨ t = 1) :
    (pos_mask b).get? i = some (decide (t = 1) && !ig) ∧
    (neg_mask b).get? i = some (decide (t = 0) && !ig) ∧
    ¬((decide (t = 1) && !ig) = true ∧ (decide (t = 0) && !ig) = true) ∧
    ((if (decide (t = 1) && !ig) = true then 1 else 0) +
      (if (decide (t = 0) && !ig) = true then 1 else 0) +
      (if ig = true then 1 else 0) = (1 : Nat)) := by
  refine ⟨get?_zipWith _ _ _ _ _ _ ht hig, get?_zipWith _ _ _ _ _ _ ht hig, ?_, ?_⟩
  · rcases hbin with rfl | rfl <;> cases ig <;> norm_num
  · rcases hbin with rfl | rfl <;> cases ig <;> norm_num

theorem C3_masks_partition_witness :
    (pos_mask exBatch1).get? 0 = some (decide ((1 : ℚ) = 1) && !false) ∧
    (neg_mask exBatch1).get? 0 = some (decide ((1 : ℚ) = 0) && !false) ∧
    ¬((decide ((1 : ℚ) = 1) && !false) = true ∧ (decide ((1 : ℚ) = 0) && !false) = true) ∧
    ((if (decide ((1 : ℚ) = 1) && !false) = true then 1 else 0) +
      (if (decide ((1 : ℚ) = 0) && !false) = true then 1 else 0) +
      (if false = true then 1 else 0) = (1 : Nat)) :=
  C3_masks_partition exBatch1 0 1 false rfl rfl (Or.inr rfl)

/-- C2 counterexample: a batch with zero positives (two plain negatives,
nothing ignored).  Contrary to the claim, `training_step` does not complete
with a zero-contribution classification loss and a zero regression loss:
both losses are means over empty selections, i.e. NaN, and the step errors
out at the line-131 assertion. -/
theorem C2_counterexample :
    countTrue (pos_mask exBatchNoPos) = 0 ∧
    training_step bceSq exBatchNoPos = Except.error "nan loss" := by
  constructor
  · decide
  · rfl

/-- C2 amended: for every batch with zero positive locations,
`training_step` selects 0 negatives, the classification loss is the mean
over an empty selection (NaN, modelled `none`), the regression loss is
likewise NaN rather than 0, and the step raises the NaN assertion instead
of returning a loss. -/
theorem C2_zero_positives (bce : ℚ → ℚ → ℚ) (b : FlatBatch)
    (h0 : countTrue (pos_mask b) = 0) :
    countTrue (mineNegMask (pos_mask b) (neg_mask b)) = 0 ∧
    cls_loss bce b = none ∧ reg_loss b = none ∧
    training_step bce b = Except.error "nan loss" := by
  have hmine : countTrue (mineNegMask (pos_mask b) (neg_mask b)) = 0 := by
    have := countTrue_mineNegMask (pos_mask b) (neg_mask b)
    omega
  have hm : countTrue (orMask (pos_mask b) (mineNegMask (pos_mask b) (neg_mask b))) = 0 :=
    countTrue_orMask_zero h0 hmine
  have hcls : cls_loss bce b = none := by
    unfold cls_loss
    rw [maskSelect_of_countTrue_zero _ hm, maskSelect_of_countTrue_zero _ hm]
    rfl
  have hreg : reg_loss b = none := by
    unfold reg_loss
    rw [maskSelect_of_countTrue_zero _ h0, maskSelect_of_countTrue_zero _ h0]
    rfl
  refine ⟨hmine, hcls, hreg, ?_⟩
  unfold training_step
  rw [hcls, hreg]

theorem C2_zero_positives_witness :
    countTrue (pos_mask exBatchNoPos) = 0 ∧
    (countTrue (mineNegMask (pos_mask exBatchNoPos) (neg_mask exBatchNoPos)) = 0 ∧
      cls_loss bceSq exBatchNoPos = none ∧ reg_loss exBatchNoPos = none ∧
      training_step bceSq exBatchNoPos = Except.error "nan loss") :=
  ⟨by decide, C2_zero_positives bceSq exBatchNoPos (by decide)⟩

/-- C4: the loss `training_step` returns is the sum of exactly two terms —
the binary-cross-entropy-with-logits classification loss over the locations
in the union of the positive mask and the mined negative mask, and the
mean-squared-error regression loss over the locations in the positive mask
(loss values phrased over the paired per-location selections). -/
theorem C4_loss_decomposition (bce : ℚ → ℚ → ℚ) (b : FlatBatch) (c r : ℚ)
    (hlen1 : b.cls_logits.length = b.target_cls.length)
    (hlen2 : b.reg_logits.length = b.target_regs.length)
    (hc : pairLoss bce (maskSelect (b.cls_logits.zip b.target_cls)
        (orMask (pos_mask b) (mineNegMask (pos_mask b) (neg_mask b)))) = some c)
    (hr : pairLoss4 (maskSelect (b.reg_logits.zip b.target_regs) (pos_mask b)) = some r) :
    training_step bce b = Except.ok (c + r) := by
  have hcls : cls_loss bce b = some c := by
    unfold cls_loss
    rw [meanLoss_eq_pairLoss, ← maskSelect_zip _ _ _ hlen1]
    exact hc
  have hreg : reg_loss b = some r := by
    unfold reg_loss
    rw [mse_loss_eq_pairLoss4, ← maskSelect_zip _ _ _ hlen2]
    exact hr
  unfold training_step
  rw [hcls, hreg]

theorem C4_loss_decomposition_witness :
    pairLoss bceSq (maskSelect (exSmall.cls_logits.zip exSmall.target_cls)
        (orMask (pos_mask exSmall)
          (mineNegMask (pos_mask exSmall) (neg_mask exSmall)))) = some 1 ∧
    pairLoss4 (maskSelect (exSmall.reg_logits.zip exSmall.target_regs)
        (pos_mask exSmall)) = some 0 ∧
    training_step bceSq exSmall = Except.ok (1 + 0) := by
  have hmask : orMask (pos_mask exSmall) (mineNegMask (pos_mask exSmall) (neg_mask exSmall))
      = [true] := by decide
  have hp : pos_mask exSmall = [true] := by decide
  have hc : pairLoss bceSq (maskSelect (exSmall.cls_logits.zip exSmall.target_cls)
      (orMask (pos_mask exSmall) (mineNegMask (pos_mask exSmall) (neg_mask exSmall))))
      = some 1 := by
    rw [hmask]; norm_num [exSmall, maskSelect, pairLoss, bceSq]
  have hr : pairLoss4 (maskSelect (exSmall.reg_logits.zip exSmall.target_regs)
      (pos_mask exSmall)) = some 0 := by
    rw [hp]; norm_num [exSmall, maskSelect, pairLoss4, sqErr4]
  exact ⟨hc, hr, C4_loss_decomposition bceSq exSmall 1 0 rfl rfl hc hr⟩

/-- C6: `training_step` fails fast — it returns the line-131 assertion
error, not a loss, whenever the classification or the regression loss is
NaN (`none`), and returns their sum without error when both are non-NaN. -/
theorem C6_nan_fail_fast (bce : ℚ → ℚ → ℚ) (b : FlatBatch) :
    ((cls_loss bce b = none ∨ reg_loss b = none) →
      training_step bce b = Except.error "nan loss") ∧
    (∀ c r : ℚ, cls_loss bce b = some c → reg_loss b = some r →
      training_step bce b = Except.ok (c + r)) := by
  constructor
  · intro h
    unfold training_step
    cases hc : cls_loss bce b <;> cases hr : reg_loss b <;> simp_all
  · intro c r hc hr
    unfold training_step
    rw [hc, hr]

theorem C6_nan_fail_fast_witness :
    training_step bceSq exSmall = Except.ok (1 + 0) := by
  have hmask : orMask (pos_mask exSmall) (mineNegMask (pos_mask exSmall) (neg_mask exSmall))
      = [true] := by decide
  have hp : pos_mask exSmall = [true] := by decide
  have hc : cls_loss bceSq exSmall = some 1 := by
    unfold cls_loss
    rw [hmask]; norm_num [exSmall, maskSelect, meanLoss, bceSq]
  have hr : reg_loss exSmall = some 0 := by
    unfold reg_loss
    rw [hp]; norm_num [exSmall, maskSelect, mse_loss, sqErr4]
  exact (C6_nan_fail_fast bceSq exSmall).2 1 0 hc hr

/-! ### Head ordering and flatten/concatenate alignment (C5) -/

theorem get?_map {α β : Type} (f : α → β) :
    ∀ (l : List α) (i : Nat) (x : α), l.get? i = some x → (l.map f).get? i = some (f x)
  | [], _, _, h => by simp at h
  | a :: as, 0, x, h => by simp at h; subst h; rfl
  | a :: as, i + 1, x, h => by simpa using get?_map f as i x (by simpa using h)

theorem flattenGrid_zip {α β : Type} :
    ∀ (g : List (List α)) (h : List (List β)), gridDimsEq g h = true →
      (flattenGrid g).zip (flattenGrid h) = flattenGrid (List.zipWith List.zip g h)
  | [], [], _ => rfl
  | [], _ :: _, h => by simp [gridDimsEq] at h
  | _ :: _, [], h => by simp [gridDimsEq] at h
  | r :: g, s :: h, hd => by
      have hd' : r.length = s.length ∧ gridDimsEq g h = true := by
        simpa [gridDimsEq] using hd
      show (r ++ flattenGrid g).zip (s ++ flattenGrid h)
          = r.zip s ++ flattenGrid (List.zipWith List.zip g h)
      rw [List.zip_append hd'.1, flattenGrid_zip g h hd'.2]

theorem flattenGrid_length_eq {α β : Type} :
    ∀ (g : List (List α)) (h : List (List β)), gridDimsEq g h = true →
      (flattenGrid g).length = (flattenGrid h).length
  | [], [], _ => rfl
  | [], _ :: _, h => by simp [gridDimsEq] at h
  | _ :: _, [], h => by simp [gridDimsEq] at h
  | r :: g, s :: h, hd => by
      have hd' : r.length = s.length ∧ gridDimsEq g h = true := by
        simpa [gridDimsEq] using hd
      show (r ++ flattenGrid g).length = (s ++ flattenGrid h).length
      simp [hd'.1, flattenGrid_length_eq g h hd'.2]

theorem flattenConcat_zip {α β : Type} :
    ∀ (gs : List (List (List α))) (hs : List (List (List β))), dimsMatch gs hs = true →
      (flattenConcat gs).zip (flattenConcat hs) = flattenConcat (zipGrids gs hs)
  | [], [], _ => rfl
  | [], _ :: _, h => by simp [dimsMatch] at h
  | _ :: _, [], h => by simp [dimsMatch] at h
  | g :: gs, h :: hs, hd => by
      have hd' : gridDimsEq g h = true ∧ dimsMatch gs hs = true := by
        simpa [dimsMatch] using hd
      show (flattenGrid g ++ flattenConcat gs).zip (flattenGrid h ++ flattenConcat hs)
          = flattenGrid (List.zipWith List.zip g h) ++ flattenConcat (zipGrids gs hs)
      rw [List.zip_append (flattenGrid_length_eq g h hd'.1), flattenGrid_zip g h hd'.1,
        flattenConcat_zip gs hs hd'.2]

/-- C5: `forward` applies head `i` to feature map `i` and returns the
per-head `cls` and `reg` outputs at position `i` of the returned lists (the
heads' order), the default scale bands are strictly increasing in that
order, and flattening then concatenating two per-head grid families of
matching dimensions in head order aligns them pointwise: the zip of the two
flattened sequences is the flattened sequence of the per-head, per-grid-cell
zips, so each flattened position pairs values of the same head and grid
location. -/
theorem C5_head_order_alignment :
    (∀ (F A B : Type) (heads : List (F → A × B)) (fms : List F) (i : Nat)
        (hd : F → A × B) (fm : F),
        heads.get? i = some hd → fms.get? i = some fm →
        (forward heads fms).1.get? i = some (hd fm).1 ∧
        (forward heads fms).2.get? i = some (hd fm).2) ∧
    List.Pairwise (fun sa sb => sa.1 < sb.1 ∧ sa.2 < sb.2 ∧ sa.2 ≤ sb.1) SCALES ∧
    (∀ (α β : Type) (gs : List (List (List α))) (hs : List (List (List β))),
        dimsMatch gs hs = true →
        (flattenConcat gs).zip (flattenConcat hs) = flattenConcat (zipGrids gs hs)) := by
  refine ⟨?_, by decide, fun α β gs hs hd => flattenConcat_zip gs hs hd⟩
  intro F A B heads fms i hd fm hh hf
  have hz : (heads.zip fms).get? i = some (hd, fm) :=
    get?_zipWith Prod.mk heads fms i hd fm hh hf
  exact ⟨get?_map _ _ _ _ hz, get?_map _ _ _ _ hz⟩

theorem C5_head_order_alignment_witness :
    (forward [fun v : Nat => (v + 1, v * 2)] [3]).1.get? 0 = some 4 ∧
    dimsMatch [[[(1 : Nat), 2], [3, 4]], [[5]]] [[[9, 8], [7, 6]], [[5]]] = true ∧
    (flattenConcat [[[(1 : Nat), 2], [3, 4]], [[5]]]).zip
        (flattenConcat [[[(9 : Nat), 8], [7, 6]], [[5]]]) =
      flattenConcat (zipGrids [[[(1 : Nat), 2], [3, 4]], [[5]]] [[[9, 8], [7, 6]], [[5]]]) := by
  refine ⟨?_, by decide, ?_⟩
  · exact (C5_head_order_alignment.1 Nat Nat Nat [fun v => (v + 1, v * 2)] [3] 0
      (fun v => (v + 1, v * 2)) 3 rfl rfl).1
  · exact C5_head_order_alignment.2.2 Nat Nat
      [[[(1 : Nat), 2], [3, 4]], [[5]]] [[[9, 8], [7, 6]], [[5]]] (by decide)

/-! ### BaseDataset.__getitem__ deep-copy frame property (C8) -/

/-- C8: `__getitem__` hands the transforms a deep copy of the stored target
dict; whatever mutation `f` the transforms perform on the dict they receive,
every dict object referenced by the dataset's stored targets list is
unchanged by the call. -/
theorem C8_getitem_frame (h : Heap) (ds : BaseDataset) (f : TargetDict → TargetDict)
    (idx r : Nat) (hr : r ∈ ds.targetRefs) (hwf : ∀ s ∈ ds.targetRefs, s < h.length) :
    (getitem h ds f idx).1.getD r [] = h.getD r [] := by
  have hlt : r < h.length := hwf r hr
  simp [getitem, deepcopy, mutateAt, List.getD_eq_getElem?_getD,
    List.getElem?_set_ne (show h.length ≠ r by omega), List.getElem?_append_left hlt]

theorem C8_getitem_frame_witness :
    (getitem exHeap exDS exMut 0).1.getD 0 [] = exHeap.getD 0 [] :=
  C8_getitem_frame exHeap exDS exMut 0 0 (by decide) (by decide)

/-! ### BaseDataset.__init__ kwargs handling (C9) -/

@[simp] theorem hasattr_append {α : Type} (l1 l2 : List (String × α)) (k : String) :
    hasattr (l1 ++ l2) k = (hasattr l1 k || hasattr l2 k) := by
  simp [hasattr]

theorem getattrD_append_of_hasattr {α : Type} {attrs : List (String × α)}
    (tail : List (String × α)) {k : String} (h : hasattr attrs k = true) :
    getattrD (attrs ++ tail) k = getattrD attrs k := by
  have hs : (attrs.find? (fun p => p.1 == k)).isSome := by
    rw [List.find?_isSome]
    simpa [hasattr] using h
  obtain ⟨y, hy⟩ := Option.isSome_iff_exists.mp hs
  simp [getattrD, List.find?_append, hy]

theorem getattrD_append_of_not_hasattr {α : Type} {attrs : List (String × α)}
    (tail : List (String × α)) {k : String} (h : hasattr attrs k = false) :
    getattrD (attrs ++ tail) k = getattrD tail k := by
  have hn : attrs.find? (fun p => p.1 == k) = none := by
    rw [List.find?_eq_none]
    intro x hx
    simp [hasattr] at h
    simpa using h x.1 x.2 hx
  simp [getattrD, List.find?_append, hn]

theorem foldl_attrStep_preserves {α : Type} :
    ∀ (kwargs : List (String × α)) (acc : List (String × α)) (k : String),
      hasattr acc k = true →
      getattrD (kwargs.foldl attrStep acc) k = getattrD acc k ∧
      hasattr (kwargs.foldl attrStep acc) k = true
  | [], _, _, h => ⟨rfl, h⟩
  | kv :: rest, acc, k, h => by
      rw [List.foldl_cons]
      by_cases hkv : hasattr acc kv.1 = true
      · rw [show attrStep acc kv = acc by simp [attrStep, hkv]]
        exact foldl_attrStep_preserves rest acc k h
      · rw [show attrStep acc kv = acc ++ [(kv.1, kv.2)] by
          simp [attrStep, setattr, hkv]]
        have h2 : hasattr (acc ++ [(kv.1, kv.2)]) k = true := by simp [h]
        obtain ⟨hg, hh⟩ := foldl_attrStep_preserves rest _ k h2
        exact ⟨hg.trans (getattrD_append_of_hasattr _ h), hh⟩

theorem foldl_attrStep_fresh {α : Type} :
    ∀ (kwargs : List (String × α)) (acc : List (String × α)) (k : String) (v : α),
      (kwargs.map Prod.fst).Nodup → (k, v) ∈ kwargs → hasattr acc k = false →
      getattrD (kwargs.foldl attrStep acc) k = some v
  | [], _, _, _, _, hmem, _ => by simp at hmem
  | kv :: rest, acc, k, v, hnd, hmem, hf => by
      rw [List.foldl_cons]
      rcases List.mem_cons.mp hmem with heq | hrest
      · subst heq
        rw [show attrStep acc (k, v) = acc ++ [(k, v)] by simp [attrStep, setattr, hf]]
        have hk : hasattr (acc ++ [(k, v)]) k = true := by simp [hasattr]
        rw [(foldl_attrStep_preserves rest _ k hk).1,
          getattrD_append_of_not_hasattr _ hf]
        simp [getattrD]
      · have hne : kv.1 ≠ k := by
          have h1 : kv.1 ∉ rest.map Prod.fst := (List.nodup_cons.mp (by simpa using hnd)).1
          intro he
          exact h1 (he ▸ List.mem_map_of_mem Prod.fst hrest)
        have hnd2 : (rest.map Prod.fst).Nodup := (List.nodup_cons.mp (by simpa using hnd)).2
        by_cases hkv : hasattr acc kv.1 = true
        · rw [show attrStep acc kv = acc by simp [attrStep, hkv]]
          exact foldl_attrStep_fresh rest acc k v hnd2 hrest hf
        · rw [show attrStep acc kv = acc ++ [(kv.1, kv.2)] by
            simp [attrStep, setattr, hkv]]
          have hf2 : hasattr (acc ++ [(kv.1, kv.2)]) k = false := by
            rw [hasattr_append, hf]
            simp [hasattr, hne]
          exact foldl_attrStep_fresh rest _ k v hnd2 hrest hf2

theorem foldl_attrStep_mem {α : Type} :
    ∀ (kwargs : List (String × α)) (acc : List (String × α)) (k : String) (v : α),
      (k, v) ∈ kwargs → hasattr (kwargs.foldl attrStep acc) k = true
  | [], _, _, _, hmem => by simp at hmem
  | kv :: rest, acc, k, v, hmem => by
      rw [List.foldl_cons]
      rcases List.mem_cons.mp hmem with heq | hrest
      · subst heq
        have hk : hasattr (attrStep acc (k, v)) k = true := by
          by_cases h2 : hasattr acc k = true
          · rw [show attrStep acc (k, v) = acc by simp [attrStep, h2]]
            exact h2
          · rw [show attrStep acc (k, v) = acc ++ [(k, v)] by
              simp [attrStep, setattr, h2]]
            simp [hasattr]
        exact (foldl_attrStep_preserves rest _ k hk).2
      · exact foldl_attrStep_mem rest (attrStep acc kv) k v hrest

/-- C9: in `BaseDataset.__init__`, a keyword argument whose name the
instance already has (such as `ids`, `targets` or `transforms`) is silently
skipped and that attribute keeps its value; a keyword with a fresh name is
attached as a new attribute with the given value; and no keyword is ever
rejected — afterwards every keyword name is an attribute of the instance. -/
theorem C9_init_kwargs (α : Type) (ids targets transforms : α)
    (kwargs : List (String × α)) :
    (∀ k : String,
        hasattr [("ids", ids), ("targets", targets), ("transforms", transforms)] k = true →
        getattrD (initAttrs ids targets transforms kwargs) k =
          getattrD [("ids", ids), ("targets", targets), ("transforms", transforms)] k) ∧
    (∀ (k : String) (v : α), (kwargs.map Prod.fst).Nodup → (k, v) ∈ kwargs →
        hasattr [("ids", ids), ("targets", targets), ("transforms", transforms)] k = false →
        getattrD (initAttrs ids targets transforms kwargs) k = some v) ∧
    (∀ (k : String) (v : α), (k, v) ∈ kwargs →
        hasattr (initAttrs ids targets transforms kwargs) k = true) :=
  ⟨fun k h => (foldl_attrStep_preserves kwargs _ k h).1,
    fun k v hnd hmem hf => foldl_attrStep_fresh kwargs _ k v hnd hmem hf,
    fun k v hmem => foldl_attrStep_mem kwargs _ k v hmem⟩

theorem C9_init_kwargs_witness :
    getattrD (initAttrs (1 : Nat) 2 3 [("ids", 7), ("extra", 5)]) "ids" =
      getattrD [("ids", (1 : Nat)), ("targets", 2), ("transforms", 3)] "ids" ∧
    getattrD (initAttrs (1 : Nat) 2 3 [("ids", 7), ("extra", 5)]) "extra" = some 5 ∧
    hasattr (initAttrs (1 : Nat) 2 3 [("ids", 7), ("extra", 5)]) "extra" = true := by
  have h := C9_init_kwargs Nat 1 2 3 [("ids", 7), ("extra", 5)]
  exact ⟨h.1 "ids" (by decide), h.2.1 "extra" 5 (by decide) (by decide) (by decide),
    h.2.2 "extra" 5 (by decide)⟩

/-! ### BaseDataset._load_image (C10) -/

/-- C10: `_load_image` always returns uint8 data (every entry `< 256`); a
2-dimensional grayscale input is converted to 3 channels by stacking the
single channel three times along the last axis; every 3-dimensional input
is returned with its shape — in particular its channel count — unchanged
(values cast to uint8), so an RGBA image of shape `(h, w, 4)` keeps its 4
channels (concrete instance included); the `img[:, :, :3]` slicing branch
is taken only for 4-dimensional arrays. -/
theorem forall_mem_map_lt256 (l : List Nat) :
    ∀ x ∈ l.map toUInt8Nat, decide (x < 256) = true := by
  intro x hx
  rcases List.mem_map.mp hx with ⟨a, _, rfl⟩
  simpa [toUInt8Nat] using Nat.mod_lt a (by omega)

theorem u8Bounded_cast (img : NpArr) : u8Bounded (castArrU8 img) = true := by
  cases img with
  | d2 a =>
    simp only [castArrU8, u8Bounded, List.all_eq_true]
    intro r hr
    rcases List.mem_map.mp hr with ⟨r0, _, rfl⟩
    exact forall_mem_map_lt256 r0
  | d3 a =>
    simp only [castArrU8, u8Bounded, List.all_eq_true]
    intro p hp
    rcases List.mem_map.mp hp with ⟨p0, _, rfl⟩
    intro r hr
    rcases List.mem_map.mp hr with ⟨r0, _, rfl⟩
    exact forall_mem_map_lt256 r0
  | d4 a =>
    simp only [castArrU8, u8Bounded, List.all_eq_true]
    intro q hq
    rcases List.mem_map.mp hq with ⟨q0, _, rfl⟩
    intro p hp
    rcases List.mem_map.mp hp with ⟨p0, _, rfl⟩
    intro r hr
    rcases List.mem_map.mp hr with ⟨r0, _, rfl⟩
    exact forall_mem_map_lt256 r0

theorem C10_load_image :
    (∀ img : NpArr, u8Bounded (_load_image img) = true) ∧
    (∀ g : List (List Nat), _load_image (NpArr.d2 g) =
        NpArr.d3 (g.map (fun row => row.map (fun v => [v % 256, v % 256, v % 256])))) ∧
    (∀ a : List (List (List Nat)), _load_image (NpArr.d3 a) =
        NpArr.d3 (a.map (List.map (List.map (fun v => v % 256))))) ∧
    _load_image (NpArr.d3 [[[300, 2, 3, 4]]]) = NpArr.d3 [[[44, 2, 3, 4]]] ∧
    (∀ q : List (List (List (List Nat))), _load_image (NpArr.d4 q) =
        NpArr.d4 ((q.map (fun x => x.map (fun y => y.take 3))).map
          (List.map (List.map (List.map (fun v => v % 256)))))) := by
  refine ⟨?_, ?_, fun a => rfl, rfl, fun q => rfl⟩
  · intro img
    cases img <;> exact u8Bounded_cast _
  · intro g
    simp [_load_image, castArrU8, toUInt8Nat, List.map_map, Function.comp]

end FastFace
